import Mathlib

/- Shallow embedding of the mirror tool (dzidzitop/mirror): the verification
engine of src/mirror/utils.hpp (verifyDir with its inline EventHandler and the
scanFiles tree walker), the mismatch handler of src/main.cpp, and the chunked
file reader processFile.  Paths and names are modelled as strings compared for
exact equality (charset conversion is the identity here: the spec scopes
encoding out), the MD5 digest as the list of its bytes, timestamps as their
millisecond values, and the live filesystem as an inductive tree whose files
carry the metadata that fillFileRecord would read for them. -/

/-- Kind of a store record or live entry, mirror::FileType (used by
src/main.cpp; src/mirror/FileDB.hpp itself is not in the tree). -/
inductive FileType where
  | file
  | dir
deriving DecidableEq

/-- Record of one file in the snapshot store: mirror::FileRecord with fields
type, fileSize, lastModifiedTS (milliseconds) and md5Digest (byte list).
The verify engine in utils.hpp reads fileSize, lastModifiedTS and md5Digest
and never reads type; checkFileMismatch in main.cpp reads type as well. -/
structure FileRecord where
  type : FileType
  fileSize : Nat
  lastModifiedTS : Nat
  md5Digest : List Nat
deriving DecidableEq

/-- Children of one directory as recorded in the store: mirror::DirFileMap,
a name-keyed map modelled as an association list. -/
abbrev DirFileMap := List (String × FileRecord)

/-- Snapshot store as seen through the two read queries verifyDir issues:
getDirs (all known directory paths) and getFiles (children of one directory;
an unknown directory yields the empty map). -/
structure FileDB where
  dirs : List String
  files : String → DirFileMap

/-- Mismatch conditions the verify engine reports (utils.hpp lines 101, 126,
136, 140, 146 and 163).  File-level reports keep the directory part and the
file name separate; the source concatenates them into relativePath before
logging. -/
inductive Report where
  | newFileFound (relDir name : String)
  | fileNotFound (relDir name : String)
  | sizeMismatch (relDir name : String) (expected actual : Nat)
  | tsMismatch (relDir name : String) (expected actual : Nat)
  | digestMismatch (relDir name : String) (expected actual : List Nat)
  | dirNotFound (path : String)
deriving DecidableEq

/-- Store operations of the snapshot-store contract: the two read queries the
verify engine uses plus the two upserts of create mode. -/
inductive DBOp where
  | getDirs
  | getFiles (dir : String)
  | upsertFile (dir name : String) (rec : FileRecord)
  | upsertDir (dir : String)
deriving DecidableEq

/-- Calls of the caller-supplied mismatch handler interface, from struct
VerifyDirMismatchHandler in src/main.cpp (fileNotFound, newFileFound,
checkFileMismatch). -/
inductive HandlerCall where
  | fileNotFound (type : FileType) (path : String)
  | newFileFound (type : FileType) (path : String)
  | checkFileMismatch (path : String) (expected actual : FileRecord)
deriving DecidableEq

/-- State of verifyDir's inline EventHandler (utils.hpp lines 71-157): the
directory set dbDirs, the expectation stack ctxs, plus three observation
channels: the mismatch reports emitted (via logError/logDebug in the source),
the store operations issued, and the calls made on the caller-supplied
MismatchHandler template parameter. -/
structure VState where
  dbDirs : List String
  ctxs : List DirFileMap
  reports : List Report
  ops : List DBOp
  handlerCalls : List HandlerCall
deriving DecidableEq

/-- Lookup of a name in a DirFileMap, the map find of utils.hpp line 123. -/
def findRec (k : String) : DirFileMap → Option FileRecord
  | [] => none
  | (a, v) :: t => if a = k then some v else findRec k t

/-- Removal of the entry found for a name, the map erase of utils.hpp
line 151 (removes the first entry with that key). -/
def eraseKey (k : String) : DirFileMap → DirFileMap
  | [] => []
  | (a, v) :: t => if a = k then t else (a, v) :: eraseKey k t

/-- Relative-path concatenation of utils.hpp lines 92-95 and 249-253: the
empty parent (the root) contributes no separator. -/
def joinRel (parent name : String) : String :=
  if parent = "" then name else parent ++ "/" ++ name

/-- EventHandler::dirStart (utils.hpp lines 75-86): erase the directory from
dbDirs, fetch its expectation from the store and push it. -/
def handlerDirStart (db : FileDB) (rel : String) (st : VState) : VState :=
  { st with dbDirs := st.dbDirs.erase rel,
            ctxs := db.files rel :: st.ctxs,
            ops := st.ops ++ [DBOp.getFiles rel] }

/-- Per-field comparison reports of EventHandler::file (utils.hpp lines
135-149), in source order: size, then timestamp, then digest.  The engine
compares the three fields independently; it never compares the kind. -/
def fieldReports (rel name : String) (e r : FileRecord) : List Report :=
  (if e.fileSize ≠ r.fileSize then [Report.sizeMismatch rel name e.fileSize r.fileSize] else [])
    ++ (if e.lastModifiedTS ≠ r.lastModifiedTS then
          [Report.tsMismatch rel name e.lastModifiedTS r.lastModifiedTS] else [])
    ++ (if e.md5Digest ≠ r.md5Digest then
          [Report.digestMismatch rel name e.md5Digest r.md5Digest] else [])

/-- EventHandler::file (utils.hpp lines 106-152): look the name up in the top
expectation; a miss reports a new file and returns; a hit compares the fields
and erases the entry regardless of the outcome.  The live record r stands for
what fillFileRecord reads from the file. -/
def handlerFile (rel name : String) (r : FileRecord) (st : VState) : VState :=
  match st.ctxs with
  | [] => st
  | top :: rest =>
    match findRec name top with
    | none => { st with reports := st.reports ++ [Report.newFileFound rel name] }
    | some e =>
      { st with reports := st.reports ++ fieldReports rel name e r,
                ctxs := eraseKey name top :: rest }

/-- EventHandler::dirEnd (utils.hpp lines 88-104): report every entry still in
the top expectation as not found in the file system, then pop the stack. -/
def handlerDirEnd (rel : String) (st : VState) : VState :=
  match st.ctxs with
  | [] => st
  | top :: rest =>
    { st with reports := st.reports ++ top.map (fun p => Report.fileNotFound rel p.1),
              ctxs := rest }

/-- Result of opendir on a live directory (utils.hpp lines 215-227): success,
EACCES (subtree skipped, non-fatal), or any other error (thrown, fatal). -/
inductive DirAccess where
  | ok
  | denied
  | err (code : Nat)
deriving DecidableEq

/-- One live directory entry as readdir hands it to scanFiles (utils.hpp
lines 233-262): a regular file (DT_REG) carrying the metadata fillFileRecord
would compute for it, a directory (DT_DIR) with its open outcome and children
in iteration order, or any other entry kind (skipped). -/
inductive Entry where
  | file (name : String) (rec : FileRecord)
  | dir (name : String) (acc : DirAccess) (children : List Entry)
  | other (name : String)

mutual
/-- Dispatch of one directory entry in scanFiles' readdir loop (utils.hpp
lines 233-263): DT_REG invokes EventHandler::file; DT_DIR skips "." and ".."
and otherwise recurses into the subdirectory (scanFiles there first opens it:
EACCES returns silently before dirStart, another opendir failure throws the
error code, success brackets the children with dirStart/dirEnd); any other
entry kind is skipped. -/
def scanEntry (db : FileDB) (parentRel : String) (e : Entry) (st : VState) :
    Except Nat VState :=
  match e with
  | .file name r => .ok (handlerFile parentRel name r st)
  | .other _ => .ok st
  | .dir name acc children =>
    if name = "." ∨ name = ".." then .ok st
    else
      match acc with
      | .denied => .ok st
      | .err c => .error c
      | .ok =>
        match scanEntries db (joinRel parentRel name) children
            (handlerDirStart db (joinRel parentRel name) st) with
        | .error c => .error c
        | .ok st2 => .ok (handlerDirEnd (joinRel parentRel name) st2)

/-- Sequential processing of a directory's entries in readdir order, the
while loop of utils.hpp lines 233-263. -/
def scanEntries (db : FileDB) (rel : String) (es : List Entry) (st : VState) :
    Except Nat VState :=
  match es with
  | [] => .ok st
  | e :: rest =>
    match scanEntry db rel e st with
    | .error c => .error c
    | .ok st1 => scanEntries db rel rest st1
end

/-- Full stateful walk of mirror::verifyDir (utils.hpp lines 63-167) up to the
final sweep: build the handler state (the constructor issues getDirs), then
scanFiles(rootDir, "") on the live root: open it (EACCES returns having done
nothing, another failure throws), dirStart(""), the children, dirEnd(""). -/
def verifyRun (db : FileDB) (rootAcc : DirAccess) (rootChildren : List Entry) :
    Except Nat VState :=
  let st0 : VState := ⟨db.dirs, [], [], [DBOp.getDirs], []⟩
  match rootAcc with
  | .denied => .ok st0
  | .err c => .error c
  | .ok =>
    match scanEntries db "" rootChildren (handlerDirStart db "" st0) with
    | .error c => .error c
    | .ok st => .ok (handlerDirEnd "" st)

/-- mirror::verifyDir (utils.hpp lines 63-167): the walk followed by the final
sweep of lines 162-164, one report per directory still in dbDirs (the source
emits these through logDebug, with passing them to the caller left as a TODO). -/
def verifyDir (db : FileDB) (rootAcc : DirAccess) (rootChildren : List Entry) :
    Except Nat (List Report) :=
  match verifyRun db rootAcc rootChildren with
  | .error c => .error c
  | .ok st => .ok (st.reports ++ st.dbDirs.map Report.dirNotFound)

/-- Reports of a completed verification run (empty for an aborted one); a
convenience projection of verifyDir for concrete statements. -/
def runReports (db : FileDB) (rootAcc : DirAccess) (rootChildren : List Entry) :
    List Report :=
  match verifyDir db rootAcc rootChildren with
  | .ok rs => rs
  | .error _ => []

/-- Calls made on the caller-supplied MismatchHandler during a completed
verification run (empty for an aborted one). -/
def runHandlerCalls (db : FileDB) (rootAcc : DirAccess) (rootChildren : List Entry) :
    List HandlerCall :=
  match verifyRun db rootAcc rootChildren with
  | .ok st => st.handlerCalls
  | .error _ => []

mutual
/-- Relative paths of the subdirectories the walker actually enters below one
entry: a dir entry not named "." or ".." whose opendir succeeds, followed by
the directories entered below it.  Skipped (denied) subtrees contribute
nothing; this mirrors exactly which scanFiles activations reach dirStart. -/
def enteredEntry (parentRel : String) : Entry → List String
  | .file _ _ => []
  | .other _ => []
  | .dir name acc children =>
    if name = "." ∨ name = ".." then []
    else
      match acc with
      | .ok => joinRel parentRel name :: enteredEntries (joinRel parentRel name) children
      | .denied => []
      | .err _ => []

/-- Relative paths of the directories entered below a list of entries, in
walk order. -/
def enteredEntries (parentRel : String) : List Entry → List String
  | [] => []
  | e :: rest => enteredEntry parentRel e ++ enteredEntries parentRel rest
end

/-- Relative paths of every directory a verification walk of this live tree
enters (the root, when its opendir succeeds, and then recursively). -/
def enteredDirs (rootAcc : DirAccess) (rootChildren : List Entry) : List String :=
  match rootAcc with
  | .ok => "" :: enteredEntries "" rootChildren
  | .denied => []
  | .err _ => []

/-- Names of the directory entries directly inside a list of live children,
regardless of their access outcome: these directories exist in the live tree. -/
def liveChildDirNames (es : List Entry) : List String :=
  es.foldr (fun e acc => match e with
    | .dir name _ _ => name :: acc
    | _ => acc) []

/-- Directory part of a file-level report; the final-sweep directory reports
carry none. -/
def reportRel : Report → Option String
  | .newFileFound rel _ => some rel
  | .fileNotFound rel _ => some rel
  | .sizeMismatch rel _ _ _ => some rel
  | .tsMismatch rel _ _ _ => some rel
  | .digestMismatch rel _ _ _ => some rel
  | .dirNotFound _ => none

/-- Test for a NewFileFound report. -/
def isNewReport : Report → Bool
  | .newFileFound _ _ => true
  | _ => false

/-- Test for a FileNotFound report. -/
def isFileNotFoundReport : Report → Bool
  | .fileNotFound _ _ => true
  | _ => false

/-- Test for a size-mismatch report about one particular file. -/
def isSizeFor (rel name : String) : Report → Bool
  | .sizeMismatch r n _ _ => r = rel && n = name
  | _ => false

/-- Test for a timestamp-mismatch report about one particular file. -/
def isTsFor (rel name : String) : Report → Bool
  | .tsMismatch r n _ _ => r = rel && n = name
  | _ => false

/-- Test for a digest-mismatch report about one particular file. -/
def isDigestFor (rel name : String) : Report → Bool
  | .digestMismatch r n _ _ => r = rel && n = name
  | _ => false

/-- Test for a NewFileFound report about one particular file. -/
def isNewFor (rel name : String) : Report → Bool
  | .newFileFound r n => r = rel && n = name
  | _ => false

/-- Test for a FileNotFound report about one particular file. -/
def isNotFoundFor (rel name : String) : Report → Bool
  | .fileNotFound r n => r = rel && n = name
  | _ => false

/-- Live directory children consisting of regular files only, from a list of
(name, metadata) pairs. -/
def fileEntries (L : List (String × FileRecord)) : List Entry :=
  L.map (fun p => Entry.file p.1 p.2)

/-- The EventHandler::file calls a directory's visit performs for its regular
files, in readdir order: the walker's per-file effect on the handler state. -/
def visitFiles (rel : String) (L : List (String × FileRecord)) (st : VState) : VState :=
  L.foldl (fun s p => handlerFile rel p.1 p.2 s) st

/-- Expectation map left after visiting the given live files against it:
each visited name found in the map is erased, match or mismatch alike
(utils.hpp line 151); names not found leave the map unchanged. -/
def visitTop (E : DirFileMap) : List (String × FileRecord) → DirFileMap
  | [] => E
  | (a, _) :: L =>
    match findRec a E with
    | none => visitTop E L
    | some _ => visitTop (eraseKey a E) L

/-- Reports emitted while visiting the given live files against an expectation
map, with the map evolving by erasure as in EventHandler::file. -/
def fileVisitReports (rel : String) (E : DirFileMap) :
    List (String × FileRecord) → List Report
  | [] => []
  | (a, r) :: L =>
    match findRec a E with
    | none => Report.newFileFound rel a :: fileVisitReports rel E L
    | some e => fieldReports rel a e r ++ fileVisitReports rel (eraseKey a E) L

/-- Uniqueness of the keys of an expectation map, the map invariant of
mirror::DirFileMap. -/
def keysNodup (E : DirFileMap) : Prop :=
  (E.map Prod.fst).Nodup

/-- Number of visited live files whose name is found in the expectation map. -/
def matchedCount (E : DirFileMap) (L : List (String × FileRecord)) : Nat :=
  (L.filter (fun p => (findRec p.1 E).isSome)).length

/-- Size of the union of two name lists (exact for lists without duplicates). -/
def unionSize (xs ys : List String) : Nat :=
  (xs ++ ys.filter (fun y => decide (y ∉ xs))).length

/-- Mismatch events of VerifyDirMismatchHandler::checkFileMismatch
(src/main.cpp lines 105-148): the per-field log lines it can emit. -/
inductive MReport where
  | typeMismatch (path : String) (expected actual : FileType)
  | sizeMismatch (path : String) (expected actual : Nat)
  | tsMismatch (path : String) (expected actual : Nat)
  | digestMismatch (path : String) (expected actual : List Nat)
deriving DecidableEq

/-- VerifyDirMismatchHandler::checkFileMismatch (src/main.cpp lines 105-148):
a type difference reports once and skips the field comparisons; equal types
of kind file compare size, timestamp and digest and report each differing
field; equal non-file types compare nothing.  Returns the emitted events and
the fullMatch flag the source returns. -/
def checkFileMismatch (path : String) (e a : FileRecord) : List MReport × Bool :=
  if e.type ≠ a.type then
    ([MReport.typeMismatch path e.type a.type], false)
  else if a.type = FileType.file then
    let sizeMis := decide (e.fileSize ≠ a.fileSize)
    let lastModMis := decide (e.lastModifiedTS ≠ a.lastModifiedTS)
    let digestMis := decide (e.md5Digest ≠ a.md5Digest)
    ((if sizeMis then [MReport.sizeMismatch path e.fileSize a.fileSize] else [])
      ++ (if lastModMis then [MReport.tsMismatch path e.lastModifiedTS a.lastModifiedTS] else [])
      ++ (if digestMis then [MReport.digestMismatch path e.md5Digest a.md5Digest] else []),
     !sizeMis && !lastModMis && !digestMis)
  else ([], true)

/-- Outcome of the chunked read loop of mirror::_helper::processFile
(utils.hpp lines 184-196), with the chunks fed to the chunk operation so far:
a full 4096-byte read feeds the chunk and continues; a short read at
end-of-file feeds the final partial chunk and finishes; a short read not at
end-of-file raises the fatal read failure without feeding the chunk.  ranOut
marks exhaustion of the modelled read sequence (no constraint intended). -/
inductive PFResult where
  | finished (fed : List (List Nat))
  | readFailure (fed : List (List Nat))
  | ranOut (fed : List (List Nat))
deriving DecidableEq

/-- Read loop of processFile over the successive fread results, each a chunk
together with the feof flag observed after it. -/
def processChunks (fed : List (List Nat)) : List (List Nat × Bool) → PFResult
  | [] => .ranOut fed
  | (chunk, eof) :: rest =>
    if chunk.length = 4096 then processChunks (fed ++ [chunk]) rest
    else if eof then .finished (fed ++ [chunk])
    else .readFailure fed

/-- Successive fread(buf, 1, 4096) results for a regular file with the given
content: full chunks while at least 4096 bytes remain (end-of-file not yet
observed), then the final short chunk with end-of-file set. -/
def readsOfContent (c : List Nat) : List (List Nat × Bool) :=
  if c.length < 4096 then [(c, true)]
  else (c.take 4096, false) :: readsOfContent (c.drop 4096)
termination_by c.length
decreasing_by simp_all; omega

/-- Content split into the chunks processFile feeds to the digest accumulator:
full 4096-byte chunks followed by the final partial chunk. -/
def chunksOf (c : List Nat) : List (List Nat) :=
  if c.length < 4096 then [c]
  else c.take 4096 :: chunksOf (c.drop 4096)
termination_by c.length
decreasing_by simp_all; omega

/-- A short read not at end-of-file occurs in the read sequence, all reads
before it being full 4096-byte chunks: the condition under which the read
loop raises its fatal failure. -/
def shortReadNotEof (reads : List (List Nat × Bool)) : Prop :=
  ∃ k, ∃ hk : k < reads.length,
    ((reads.take k).all fun p => p.1.length == 4096) = true ∧
    (reads.get ⟨k, hk⟩).1.length ≠ 4096 ∧ (reads.get ⟨k, hk⟩).2 = false

/-- Outcome of one processFile call (utils.hpp lines 179-209), for the
resource accounting: the loop finished and fclose succeeded (completed) or
failed (closeFailed, which throws after the close); the chunk operation threw
(caught, closed, rethrown); the read failed (handleReadFileError throws, the
handler is caught, closed, rethrown); fopen failed (handleOpenFileError
throws before any handle exists); or the modelled read sequence ran out. -/
inductive PFOutcome where
  | completed
  | openFailed
  | readFailed
  | chunkThrew
  | closeFailed
  | ranOut
deriving DecidableEq

/-- Loop outcome of processFile when the chunk operation may throw on its
k-th invocation (counted from 0). -/
inductive PFLoopOutcome where
  | completed
  | readFailed
  | chunkThrew
  | ranOut
deriving DecidableEq

/-- Read loop of processFile with a possibly-throwing chunk operation. -/
def pfLoop (throwAt : Option Nat) (k : Nat) : List (List Nat × Bool) → PFLoopOutcome
  | [] => .ranOut
  | (chunk, eof) :: rest =>
    if chunk.length = 4096 then
      if throwAt = some k then .chunkThrew else pfLoop throwAt (k + 1) rest
    else if eof then
      if throwAt = some k then .chunkThrew else .completed
    else .readFailed

/-- Resource trace of one processFile call: whether fopen succeeded (a handle
was acquired) and whether fclose was called on it before the call returned. -/
structure PFTrace where
  opened : Bool
  closed : Bool
  outcome : PFOutcome
deriving DecidableEq

/-- mirror::_helper::processFile (utils.hpp lines 179-209) together with
openFile (lines 169-177), tracking the file handle: fopen failure throws via
handleOpenFileError before a handle exists; inside the try block a read
failure or a throwing chunk operation reaches the catch clause, which closes
the handle and rethrows; on normal completion the handle is closed, and a
failing fclose throws only after the close call released it. -/
def processFileH (openOk : Bool) (reads : List (List Nat × Bool))
    (throwAt : Option Nat) (closeOk : Bool) : PFTrace :=
  if openOk then
    match pfLoop throwAt 0 reads with
    | .ranOut => ⟨true, false, .ranOut⟩
    | .chunkThrew => ⟨true, true, .chunkThrew⟩
    | .readFailed => ⟨true, true, .readFailed⟩
    | .completed => ⟨true, true, if closeOk then .completed else .closeFailed⟩
  else ⟨false, false, .openFailed⟩

mutual
/-- Modelled from the spec: the create-mode observer of mirror::createDB,
whose definition is not part of the header (only its declaration, utils.hpp
line 35, is in the tree).  Spec 4.4: enterDirectory upserts the directory
into the store, visitFile upserts a FileRecord computed by the hasher,
leaveDirectory does nothing; the walk itself is the scanFiles traversal. -/
def createScanEntry (parentRel : String) (e : Entry) (ops : List DBOp) :
    Except Nat (List DBOp) :=
  match e with
  | .file name r => .ok (ops ++ [DBOp.upsertFile parentRel name r])
  | .other _ => .ok ops
  | .dir name acc children =>
    if name = "." ∨ name = ".." then .ok ops
    else
      match acc with
      | .denied => .ok ops
      | .err c => .error c
      | .ok =>
        createScanEntries (joinRel parentRel name) children
          (ops ++ [DBOp.upsertDir (joinRel parentRel name)])

/-- Modelled from the spec: create-mode processing of a directory's entries
in readdir order. -/
def createScanEntries (parentRel : String) (es : List Entry) (ops : List DBOp) :
    Except Nat (List DBOp) :=
  match es with
  | [] => .ok ops
  | e :: rest =>
    match createScanEntry parentRel e ops with
    | .error c => .error c
    | .ok ops1 => createScanEntries parentRel rest ops1
end

/-- Modelled from the spec: a full mirror::createDB run over the live tree,
returning the store upserts it issues, or the error a fatal directory-open
failure propagates. -/
def createDBRun (rootAcc : DirAccess) (rootChildren : List Entry) :
    Except Nat (List DBOp) :=
  match rootAcc with
  | .denied => .ok []
  | .err c => .error c
  | .ok => createScanEntries "" rootChildren [DBOp.upsertDir ""]

/-- Exit behaviour of main (src/main.cpp lines 236-267): normal return with a
status code, or termination through an exception main's handlers do not
convert to a status (the walk throws raw error codes). -/
inductive MainOutcome where
  | exitCode (code : Nat)
  | abnormal (code : Nat)
deriving DecidableEq

/-- Exit of main for a verify-dir run (src/main.cpp lines 241-245, 258-260):
the walk completing leads to db.close() and return 0 no matter what was
reported; a thrown error unwinds past the return. -/
def mainVerifyOutcome (db : FileDB) (rootAcc : DirAccess)
    (rootChildren : List Entry) : MainOutcome :=
  match verifyDir db rootAcc rootChildren with
  | .ok _ => .exitCode 0
  | .error c => .abnormal c

/-- Exit of main for a create-db run (src/main.cpp lines 238-239, 258-260),
over the spec-modelled createDB walk. -/
def mainCreateOutcome (rootAcc : DirAccess) (rootChildren : List Entry) :
    MainOutcome :=
  match createDBRun rootAcc rootChildren with
  | .ok _ => .exitCode 0
  | .error c => .abnormal c

/-- Modelled from the spec: store semantics for the snapshot-store contract
of spec 6 (FileDB.hpp is not in the tree).  The two read queries leave the
store untouched; upsertDirectory adds the directory if absent; upsertFileRecord
replaces or adds the record under its directory. -/
def upsertRec (n : String) (r : FileRecord) : DirFileMap → DirFileMap
  | [] => [(n, r)]
  | (a, v) :: t => if a = n then (a, r) :: t else (a, v) :: upsertRec n r t

/-- Modelled from the spec: effect of one store operation on the store state. -/
def applyOp (db : FileDB) : DBOp → FileDB
  | .getDirs => db
  | .getFiles _ => db
  | .upsertDir d =>
    { db with dirs := if d ∈ db.dirs then db.dirs else db.dirs ++ [d] }
  | .upsertFile d n r =>
    { db with files := fun x => if x = d then upsertRec n r (db.files d) else db.files x }

/-- Test for a read-only store operation. -/
def isReadOp : DBOp → Bool
  | .getDirs => true
  | .getFiles _ => true
  | .upsertFile _ _ _ => false
  | .upsertDir _ => false

/- Association-map lemmas for the DirFileMap operations. -/

theorem findRec_eq_none_iff (k : String) (E : DirFileMap) :
    findRec k E = none ↔ k ∉ E.map Prod.fst := by
  induction E with
  | nil => simp [findRec]
  | cons p t ih =>
    obtain ⟨a, v⟩ := p
    by_cases h : a = k
    · subst h
      simp [findRec]
    · simp [findRec, h, ih, Ne.symm h]

theorem findRec_eraseKey_of_ne (a k : String) (h : a ≠ k) (E : DirFileMap) :
    findRec k (eraseKey a E) = findRec k E := by
  induction E with
  | nil => simp [eraseKey]
  | cons p t ih =>
    obtain ⟨b, v⟩ := p
    by_cases hb : b = a
    · subst hb
      simp [eraseKey, findRec, h]
    · by_cases hbk : b = k
      · subst hbk
        simp [eraseKey, findRec, hb]
      · simp [eraseKey, findRec, hb, hbk, ih]

theorem map_fst_eraseKey (k : String) (E : DirFileMap) :
    (eraseKey k E).map Prod.fst = (E.map Prod.fst).erase k := by
  induction E with
  | nil => simp [eraseKey]
  | cons p t ih =>
    obtain ⟨a, v⟩ := p
    by_cases h : a = k
    · subst h
      simp [eraseKey, List.erase_cons]
    · simp [eraseKey, h, List.erase_cons, ih]

theorem keysNodup_eraseKey (k : String) (E : DirFileMap) (h : keysNodup E) :
    keysNodup (eraseKey k E) := by
  unfold keysNodup at *
  rw [map_fst_eraseKey]
  exact h.erase k

theorem eraseKey_eq_filter (k : String) (E : DirFileMap) (h : keysNodup E) :
    eraseKey k E = E.filter (fun p => decide (p.1 ≠ k)) := by
  induction E with
  | nil => simp [eraseKey]
  | cons p t ih =>
    obtain ⟨a, v⟩ := p
    unfold keysNodup at h
    simp only [List.map_cons, List.nodup_cons] at h
    by_cases hk : a = k
    · subst hk
      rw [show eraseKey a ((a, v) :: t) = t from by simp [eraseKey],
        List.filter_cons_of_neg (by simp)]
      rw [List.filter_eq_self.2]
      intro x hx
      simp only [ne_eq, decide_eq_true_eq]
      intro hxa
      exact h.1 (hxa ▸ List.mem_map_of_mem Prod.fst hx)
    · rw [show eraseKey k ((a, v) :: t) = (a, v) :: eraseKey k t from by simp [eraseKey, hk],
        List.filter_cons_of_pos (by simp [hk]), ih h.2]

theorem findRec_eraseKey_self (k : String) (E : DirFileMap) (h : keysNodup E) :
    findRec k (eraseKey k E) = none := by
  rw [findRec_eq_none_iff, map_fst_eraseKey]
  intro hmem
  exact (List.Nodup.not_mem_erase h) hmem

/- Lemmas relating the walker's per-file processing to its pure description. -/

theorem findRec_visitTop_of_not_mem (n : String) (E : DirFileMap)
    (L : List (String × FileRecord)) (h : n ∉ L.map Prod.fst) :
    findRec n (visitTop E L) = findRec n E := by
  induction L generalizing E with
  | nil => rfl
  | cons p L ih =>
    obtain ⟨a, r⟩ := p
    simp only [List.map_cons, List.mem_cons, not_or] at h
    unfold visitTop
    cases hf : findRec a E with
    | none => exact ih E h.2
    | some e =>
      rw [ih (eraseKey a E) h.2]
      exact findRec_eraseKey_of_ne a n (fun hc => h.1 (hc ▸ rfl)) E

theorem keysNodup_visitTop (E : DirFileMap) (L : List (String × FileRecord))
    (h : keysNodup E) : keysNodup (visitTop E L) := by
  induction L generalizing E with
  | nil => exact h
  | cons p L ih =>
    obtain ⟨a, r⟩ := p
    unfold visitTop
    cases hf : findRec a E with
    | none => exact ih E h
    | some e => exact ih (eraseKey a E) (keysNodup_eraseKey a E h)

theorem visitTop_filter (E : DirFileMap) (L : List (String × FileRecord))
    (h : keysNodup E) :
    visitTop E L = E.filter (fun p => decide (p.1 ∉ L.map Prod.fst)) := by
  induction L generalizing E with
  | nil => simp [visitTop]
  | cons q L ih =>
    obtain ⟨a, r⟩ := q
    unfold visitTop
    cases hf : findRec a E with
    | none =>
      rw [ih E h]
      apply List.filter_congr
      intro x hx
      simp only [List.map_cons, List.mem_cons, decide_eq_decide, not_or]
      rw [findRec_eq_none_iff] at hf
      constructor
      · intro hL
        exact ⟨fun hc => hf (hc ▸ List.mem_map_of_mem Prod.fst hx), hL⟩
      · intro hc
        exact hc.2
    | some e =>
      rw [ih (eraseKey a E) (keysNodup_eraseKey a E h), eraseKey_eq_filter a E h,
        List.filter_filter]
      apply List.filter_congr
      intro x hx
      simp only [List.map_cons, List.mem_cons, not_or, ne_eq]
      rw [Bool.and_comm]
      simp [and_comm]

theorem visitTop_append (E : DirFileMap) (X Y : List (String × FileRecord)) :
    visitTop E (X ++ Y) = visitTop (visitTop E X) Y := by
  induction X generalizing E with
  | nil => rfl
  | cons p X ih =>
    obtain ⟨a, r⟩ := p
    cases hf : findRec a E with
    | none =>
      simp only [List.cons_append, visitTop, hf]
      exact ih E
    | some e =>
      simp only [List.cons_append, visitTop, hf]
      exact ih (eraseKey a E)

theorem fileVisitReports_append (rel : String) (E : DirFileMap)
    (X Y : List (String × FileRecord)) :
    fileVisitReports rel E (X ++ Y)
      = fileVisitReports rel E X ++ fileVisitReports rel (visitTop E X) Y := by
  induction X generalizing E with
  | nil => rfl
  | cons p X ih =>
    obtain ⟨a, r⟩ := p
    cases hf : findRec a E with
    | none => simp [List.cons_append, fileVisitReports, visitTop, hf, ih E]
    | some e => simp [List.cons_append, fileVisitReports, visitTop, hf, ih (eraseKey a E)]

theorem visitFiles_spec (rel : String) (L : List (String × FileRecord))
    (dd : List String) (cx : List DirFileMap) (rep : List Report)
    (ops : List DBOp) (hc : List HandlerCall) (E : DirFileMap) :
    visitFiles rel L ⟨dd, E :: cx, rep, ops, hc⟩
      = ⟨dd, visitTop E L :: cx, rep ++ fileVisitReports rel E L, ops, hc⟩ := by
  induction L generalizing E rep with
  | nil => simp [visitFiles, visitTop, fileVisitReports]
  | cons p L ih =>
    obtain ⟨a, r⟩ := p
    show visitFiles rel L (handlerFile rel a r ⟨dd, E :: cx, rep, ops, hc⟩) = _
    cases hf : findRec a E with
    | none => simp [handlerFile, visitTop, fileVisitReports, hf, ih]
    | some e => simp [handlerFile, visitTop, fileVisitReports, hf, ih]

theorem scanEntries_files (db : FileDB) (rel : String)
    (L : List (String × FileRecord)) (st : VState) :
    scanEntries db rel (fileEntries L) st = .ok (visitFiles rel L st) := by
  induction L generalizing st with
  | nil => simp [fileEntries, scanEntries, visitFiles]
  | cons p L ih =>
    obtain ⟨a, r⟩ := p
    show scanEntries db rel (Entry.file a r :: fileEntries L) st = _
    rw [scanEntries, scanEntry]
    simp [ih, visitFiles]

/- Counting lemmas over the emitted reports. -/

theorem countP_ite_singleton (p : Report → Bool) (c : Prop) [Decidable c] (x : Report)
    (h : p x = false) : (if c then [x] else []).countP p = 0 := by
  split
  · simp [List.countP_singleton, h]
  · simp

theorem countP_fieldReports_eq_zero (p : Report → Bool) (rel a : String) (e r : FileRecord)
    (h1 : ∀ x y, p (Report.sizeMismatch rel a x y) = false)
    (h2 : ∀ x y, p (Report.tsMismatch rel a x y) = false)
    (h3 : ∀ x y, p (Report.digestMismatch rel a x y) = false) :
    (fieldReports rel a e r).countP p = 0 := by
  unfold fieldReports
  rw [List.countP_append, List.countP_append,
    countP_ite_singleton p _ _ (h1 e.fileSize r.fileSize),
    countP_ite_singleton p _ _ (h2 e.lastModifiedTS r.lastModifiedTS),
    countP_ite_singleton p _ _ (h3 e.md5Digest r.md5Digest)]

theorem countP_fileVisitReports_zero (p : Report → Bool) (rel : String)
    (L : List (String × FileRecord))
    (hno : ∀ a ∈ L.map Prod.fst,
      (∀ x y, p (Report.sizeMismatch rel a x y) = false) ∧
      (∀ x y, p (Report.tsMismatch rel a x y) = false) ∧
      (∀ x y, p (Report.digestMismatch rel a x y) = false) ∧
      p (Report.newFileFound rel a) = false) :
    ∀ E, (fileVisitReports rel E L).countP p = 0 := by
  induction L with
  | nil =>
    intro E
    simp [fileVisitReports]
  | cons q L ih =>
    intro E
    obtain ⟨a, r⟩ := q
    have ha := hno a (by simp)
    have hrest : ∀ b ∈ L.map Prod.fst,
        (∀ x y, p (Report.sizeMismatch rel b x y) = false) ∧
        (∀ x y, p (Report.tsMismatch rel b x y) = false) ∧
        (∀ x y, p (Report.digestMismatch rel b x y) = false) ∧
        p (Report.newFileFound rel b) = false :=
      fun b hb => hno b (by simp [hb])
    cases hf : findRec a E with
    | none =>
      simp only [fileVisitReports, hf, List.countP_cons, ha.2.2.2, ih hrest E]
      simp
    | some e =>
      simp only [fileVisitReports, hf, List.countP_append]
      rw [countP_fieldReports_eq_zero p rel a e r ha.1 ha.2.1 ha.2.2.1, ih hrest (eraseKey a E)]

theorem countP_isNew_fileVisitReports (rel : String) (L : List (String × FileRecord))
    (hL : (L.map Prod.fst).Nodup) :
    ∀ E, (fileVisitReports rel E L).countP isNewReport
      = L.countP (fun p => (findRec p.1 E).isNone) := by
  induction L with
  | nil =>
    intro E
    simp [fileVisitReports]
  | cons q L ih =>
    intro E
    obtain ⟨a, r⟩ := q
    simp only [List.map_cons, List.nodup_cons] at hL
    cases hf : findRec a E with
    | none =>
      simp only [fileVisitReports, hf, List.countP_cons, ih hL.2 E]
      simp [isNewReport, hf]
    | some e =>
      simp only [fileVisitReports, hf, List.countP_append, List.countP_cons]
      rw [countP_fieldReports_eq_zero isNewReport rel a e r
            (fun x y => rfl) (fun x y => rfl) (fun x y => rfl),
        ih hL.2 (eraseKey a E)]
      have heq : L.countP (fun p => (findRec p.1 (eraseKey a E)).isNone)
          = L.countP (fun p => (findRec p.1 E).isNone) := by
        apply List.countP_congr
        intro x hx
        have hxa : a ≠ x.1 := by
          intro hc
          exact hL.1 (hc ▸ List.mem_map_of_mem Prod.fst hx)
        rw [findRec_eraseKey_of_ne a x.1 hxa E]
      simp [heq, hf]

theorem countP_map_fileNotFound_isNew (rel : String) (M : DirFileMap) :
    (M.map (fun p => Report.fileNotFound rel p.1)).countP isNewReport = 0 := by
  rw [List.countP_map]
  simp [isNewReport, Function.comp]

theorem countP_map_fileNotFound_isFNF (rel : String) (M : DirFileMap) :
    (M.map (fun p => Report.fileNotFound rel p.1)).countP isFileNotFoundReport = M.length := by
  rw [List.countP_map]
  simp [isFileNotFoundReport, Function.comp]

theorem count_partition (E : DirFileMap) (L : List (String × FileRecord)) :
    L.countP (fun p => (findRec p.1 E).isNone) + matchedCount E L = L.length := by
  unfold matchedCount
  rw [← List.countP_eq_length_filter]
  induction L with
  | nil => simp
  | cons q L ih =>
    rw [List.countP_cons, List.countP_cons]
    cases hf : findRec q.1 E <;> simp [hf] <;> omega

theorem unionSize_eq (L : List (String × FileRecord)) (E : DirFileMap) :
    unionSize (L.map Prod.fst) (E.map Prod.fst)
      = L.length + (E.filter (fun p => decide (p.1 ∉ L.map Prod.fst))).length := by
  unfold unionSize
  rw [List.length_append, List.length_map]
  congr 1
  rw [← List.countP_eq_length_filter, ← List.countP_eq_length_filter, List.countP_map]
  rfl

/- Provenance and state-evolution lemmas for the full walk. -/

theorem reportRel_fieldReports (rel a : String) (e r : FileRecord) :
    ∀ x ∈ fieldReports rel a e r, reportRel x = some rel := by
  intro x hx
  unfold fieldReports at hx
  rcases List.mem_append.1 hx with h | h
  · rcases List.mem_append.1 h with h2 | h2
    · split at h2
      · simp only [List.mem_singleton] at h2
        subst h2
        rfl
      · simp at h2
    · split at h2
      · simp only [List.mem_singleton] at h2
        subst h2
        rfl
      · simp at h2
  · split at h
    · simp only [List.mem_singleton] at h
      subst h
      rfl
    · simp at h

theorem handlerFile_effect (rel name : String) (r : FileRecord) (st : VState) :
    (handlerFile rel name r st).dbDirs = st.dbDirs ∧
    (handlerFile rel name r st).ops = st.ops ∧
    (handlerFile rel name r st).handlerCalls = st.handlerCalls ∧
    ∃ d, (handlerFile rel name r st).reports = st.reports ++ d ∧
      ∀ x ∈ d, reportRel x = some rel := by
  obtain ⟨dd, cxs, rep, ops, hcs⟩ := st
  cases cxs with
  | nil =>
    refine ⟨rfl, rfl, rfl, [], by simp [handlerFile], by simp⟩
  | cons top rest =>
    show (handlerFile rel name r ⟨dd, top :: rest, rep, ops, hcs⟩).dbDirs = _ ∧ _
    cases hf : findRec name top with
    | none =>
      refine ⟨by simp [handlerFile, hf], by simp [handlerFile, hf],
        by simp [handlerFile, hf], [Report.newFileFound rel name],
        by simp [handlerFile, hf], ?_⟩
      intro x hx
      simp only [List.mem_singleton] at hx
      subst hx
      rfl
    | some e =>
      exact ⟨by simp [handlerFile, hf], by simp [handlerFile, hf],
        by simp [handlerFile, hf], fieldReports rel name e r,
        by simp [handlerFile, hf], reportRel_fieldReports rel name e r⟩

theorem handlerDirEnd_effect (rel : String) (st : VState) :
    (handlerDirEnd rel st).dbDirs = st.dbDirs ∧
    (handlerDirEnd rel st).ops = st.ops ∧
    (handlerDirEnd rel st).handlerCalls = st.handlerCalls ∧
    ∃ d, (handlerDirEnd rel st).reports = st.reports ++ d ∧
      ∀ x ∈ d, reportRel x = some rel := by
  obtain ⟨dd, cxs, rep, ops, hcs⟩ := st
  cases cxs with
  | nil =>
    refine ⟨rfl, rfl, rfl, [], by simp [handlerDirEnd], by simp⟩
  | cons top rest =>
    refine ⟨by simp [handlerDirEnd], by simp [handlerDirEnd], by simp [handlerDirEnd],
      top.map (fun p => Report.fileNotFound rel p.1), by simp [handlerDirEnd], ?_⟩
    intro x hx
    simp only [List.mem_map] at hx
    obtain ⟨p, _, hp⟩ := hx
    subst hp
    rfl

mutual
theorem scanEntry_inv (db : FileDB) (parentRel : String) (e : Entry) (st st' : VState)
    (h : scanEntry db parentRel e st = .ok st') :
    st'.dbDirs = (enteredEntry parentRel e).foldl List.erase st.dbDirs ∧
    st'.ops = st.ops ++ (enteredEntry parentRel e).map DBOp.getFiles ∧
    st'.handlerCalls = st.handlerCalls ∧
    ∃ d, st'.reports = st.reports ++ d ∧
      ∀ x ∈ d, ∃ rl, reportRel x = some rl ∧
        (rl = parentRel ∨ rl ∈ enteredEntry parentRel e) := by
  cases e with
  | file name r =>
    simp only [scanEntry, Except.ok.injEq] at h
    subst h
    obtain ⟨h1, h2, h3, d, h4, h5⟩ := handlerFile_effect parentRel name r st
    exact ⟨by simp [enteredEntry, h1], by simp [enteredEntry, h2], h3, d, h4,
      fun x hx => ⟨parentRel, h5 x hx, Or.inl rfl⟩⟩
  | other name =>
    simp only [scanEntry, Except.ok.injEq] at h
    subst h
    exact ⟨by simp [enteredEntry], by simp [enteredEntry], rfl, [], by simp, by simp⟩
  | dir name acc children =>
    by_cases hdot : name = "." ∨ name = ".."
    · simp only [scanEntry, if_pos hdot, Except.ok.injEq] at h
      subst h
      exact ⟨by simp [enteredEntry, hdot], by simp [enteredEntry, hdot], rfl, [],
        by simp, by simp⟩
    · cases acc with
      | denied =>
        simp only [scanEntry, if_neg hdot, Except.ok.injEq] at h
        subst h
        exact ⟨by simp [enteredEntry, hdot], by simp [enteredEntry, hdot], rfl, [],
          by simp, by simp⟩
      | err c =>
        simp only [scanEntry, if_neg hdot] at h
        cases h
      | ok =>
        simp only [scanEntry, if_neg hdot] at h
        cases hs : scanEntries db (joinRel parentRel name) children
            (handlerDirStart db (joinRel parentRel name) st) with
        | error c =>
          rw [hs] at h
          cases h
        | ok st2 =>
          rw [hs] at h
          simp only [Except.ok.injEq] at h
          subst h
          obtain ⟨i1, i2, i3, d2, i4, i5⟩ :=
            scanEntries_inv db (joinRel parentRel name) children
              (handlerDirStart db (joinRel parentRel name) st) st2 hs
          obtain ⟨e1, e2, e3, d3, e4, e5⟩ :=
            handlerDirEnd_effect (joinRel parentRel name) st2
          have hent : enteredEntry parentRel (Entry.dir name DirAccess.ok children)
              = joinRel parentRel name
                :: enteredEntries (joinRel parentRel name) children := by
            simp [enteredEntry, hdot]
          refine ⟨?_, ?_, ?_, d2 ++ d3, ?_, ?_⟩
          · rw [e1, i1, hent]
            simp [handlerDirStart]
          · rw [e2, i2, hent]
            simp [handlerDirStart]
          · rw [e3, i3]
            simp [handlerDirStart]
          · rw [e4, i4]
            simp [handlerDirStart]
          · intro x hx
            rcases List.mem_append.1 hx with hx2 | hx3
            · obtain ⟨rl, hrl, hor⟩ := i5 x hx2
              refine ⟨rl, hrl, Or.inr ?_⟩
              rw [hent]
              rcases hor with hl | hr
              · exact hl ▸ List.mem_cons_self _ _
              · exact List.mem_cons_of_mem _ hr
            · refine ⟨joinRel parentRel name, e5 x hx3, Or.inr ?_⟩
              rw [hent]
              exact List.mem_cons_self _ _

termination_by sizeOf e

theorem scanEntries_inv (db : FileDB) (rel : String) (es : List Entry) (st st' : VState)
    (h : scanEntries db rel es st = .ok st') :
    st'.dbDirs = (enteredEntries rel es).foldl List.erase st.dbDirs ∧
    st'.ops = st.ops ++ (enteredEntries rel es).map DBOp.getFiles ∧
    st'.handlerCalls = st.handlerCalls ∧
    ∃ d, st'.reports = st.reports ++ d ∧
      ∀ x ∈ d, ∃ rl, reportRel x = some rl ∧
        (rl = rel ∨ rl ∈ enteredEntries rel es) := by
  cases es with
  | nil =>
    simp only [scanEntries, Except.ok.injEq] at h
    subst h
    exact ⟨by simp [enteredEntries], by simp [enteredEntries], rfl, [], by simp, by simp⟩
  | cons e rest =>
    rw [scanEntries] at h
    cases h1 : scanEntry db rel e st with
    | error c =>
      rw [h1] at h
      cases h
    | ok st1 =>
      rw [h1] at h
      obtain ⟨a1, a2, a3, d1, a4, a5⟩ := scanEntry_inv db rel e st st1 h1
      obtain ⟨b1, b2, b3, d2, b4, b5⟩ := scanEntries_inv db rel rest st1 st' h
      have hent : enteredEntries rel (e :: rest)
          = enteredEntry rel e ++ enteredEntries rel rest := by
        simp [enteredEntries]
      refine ⟨?_, ?_, ?_, d1 ++ d2, ?_, ?_⟩
      · rw [b1, a1, hent, List.foldl_append]
      · rw [b2, a2, hent]
        simp
      · rw [b3, a3]
      · rw [b4, a4]
        simp
      · intro x hx
        rcases List.mem_append.1 hx with hx1 | hx2
        · obtain ⟨rl, hrl, hor⟩ := a5 x hx1
          refine ⟨rl, hrl, ?_⟩
          rcases hor with hl | hr
          · exact Or.inl hl
          · refine Or.inr ?_
            rw [hent]
            exact List.mem_append.2 (Or.inl hr)
        · obtain ⟨rl, hrl, hor⟩ := b5 x hx2
          refine ⟨rl, hrl, ?_⟩
          rcases hor with hl | hr
          · exact Or.inl hl
          · refine Or.inr ?_
            rw [hent]
            exact List.mem_append.2 (Or.inr hr)
termination_by sizeOf es
end

theorem foldl_erase_eq_filter (xs : List String) (l : List String) (h : l.Nodup) :
    xs.foldl List.erase l = l.filter (fun a => decide (a ∉ xs)) := by
  induction xs generalizing l with
  | nil => simp
  | cons x xs ih =>
    rw [List.foldl_cons, ih (l.erase x) (h.erase x),
      List.Nodup.erase_eq_filter h x, List.filter_filter]
    apply List.filter_congr
    intro a ha
    simp only [List.mem_cons, not_or, decide_not]
    cases hax : a == x with
    | true =>
      simp only [beq_iff_eq] at hax
      simp [hax]
    | false =>
      have : a ≠ x := by
        intro hc
        rw [hc] at hax
        simp at hax
      simp [bne, hax, this]

theorem verifyRun_dbDirs (db : FileDB) (acc : DirAccess) (cs : List Entry) (st : VState)
    (hnd : db.dirs.Nodup) (h : verifyRun db acc cs = .ok st) :
    st.dbDirs = db.dirs.filter (fun a => decide (a ∉ enteredDirs acc cs)) := by
  cases acc with
  | denied =>
    simp only [verifyRun, Except.ok.injEq] at h
    subst h
    simp [enteredDirs]
  | err c =>
    simp only [verifyRun] at h
    cases h
  | ok =>
    simp only [verifyRun] at h
    cases hs : scanEntries db "" cs
        (handlerDirStart db "" ⟨db.dirs, [], [], [DBOp.getDirs], []⟩) with
    | error c =>
      rw [hs] at h
      cases h
    | ok st2 =>
      rw [hs] at h
      simp only [Except.ok.injEq] at h
      subst h
      obtain ⟨i1, -, -, -⟩ := scanEntries_inv db "" cs _ st2 hs
      obtain ⟨e1, -, -, -⟩ := handlerDirEnd_effect "" st2
      rw [e1, i1]
      have h2 : (handlerDirStart db "" ⟨db.dirs, [], [], [DBOp.getDirs], []⟩).dbDirs
          = List.erase db.dirs "" := rfl
      rw [h2]
      have h3 : (enteredEntries "" cs).foldl List.erase (List.erase db.dirs "")
          = ("" :: enteredEntries "" cs).foldl List.erase db.dirs := by
        simp [List.foldl_cons]
      rw [h3, foldl_erase_eq_filter _ _ hnd]
      rfl

theorem verifyRun_reports (db : FileDB) (acc : DirAccess) (cs : List Entry) (st : VState)
    (h : verifyRun db acc cs = .ok st) :
    ∀ x ∈ st.reports, ∃ rl, reportRel x = some rl ∧ rl ∈ enteredDirs acc cs := by
  cases acc with
  | denied =>
    simp only [verifyRun, Except.ok.injEq] at h
    subst h
    simp
  | err c =>
    simp only [verifyRun] at h
    cases h
  | ok =>
    simp only [verifyRun] at h
    cases hs : scanEntries db "" cs
        (handlerDirStart db "" ⟨db.dirs, [], [], [DBOp.getDirs], []⟩) with
    | error c =>
      rw [hs] at h
      cases h
    | ok st2 =>
      rw [hs] at h
      simp only [Except.ok.injEq] at h
      subst h
      obtain ⟨-, -, -, d2, i4, i5⟩ := scanEntries_inv db "" cs _ st2 hs
      obtain ⟨-, -, -, d3, e4, e5⟩ := handlerDirEnd_effect "" st2
      intro x hx
      rw [e4, i4] at hx
      have hstart : (handlerDirStart db "" ⟨db.dirs, [], [], [DBOp.getDirs], []⟩).reports
          = [] := rfl
      rw [hstart] at hx
      simp only [List.nil_append, List.mem_append] at hx
      rcases hx with hx2 | hx3
      · obtain ⟨rl, hrl, hor⟩ := i5 x hx2
        refine ⟨rl, hrl, ?_⟩
        show rl ∈ "" :: enteredEntries "" cs
        rcases hor with hl | hr
        · exact hl ▸ List.mem_cons_self _ _
        · exact List.mem_cons_of_mem _ hr
      · refine ⟨"", e5 x hx3, ?_⟩
        show ("" : String) ∈ "" :: enteredEntries "" cs
        exact List.mem_cons_self _ _

theorem verifyRun_ops (db : FileDB) (acc : DirAccess) (cs : List Entry) (st : VState)
    (h : verifyRun db acc cs = .ok st) :
    st.ops = DBOp.getDirs :: (enteredDirs acc cs).map DBOp.getFiles := by
  cases acc with
  | denied =>
    simp only [verifyRun, Except.ok.injEq] at h
    subst h
    simp [enteredDirs]
  | err c =>
    simp only [verifyRun] at h
    cases h
  | ok =>
    simp only [verifyRun] at h
    cases hs : scanEntries db "" cs
        (handlerDirStart db "" ⟨db.dirs, [], [], [DBOp.getDirs], []⟩) with
    | error c =>
      rw [hs] at h
      cases h
    | ok st2 =>
      rw [hs] at h
      simp only [Except.ok.injEq] at h
      subst h
      obtain ⟨-, i2, -, -⟩ := scanEntries_inv db "" cs _ st2 hs
      obtain ⟨-, e2, -, -⟩ := handlerDirEnd_effect "" st2
      rw [e2, i2]
      have hstart : (handlerDirStart db "" ⟨db.dirs, [], [], [DBOp.getDirs], []⟩).ops
          = [DBOp.getDirs, DBOp.getFiles ""] := rfl
      rw [hstart]
      show _ = DBOp.getDirs :: ("" :: enteredEntries "" cs).map DBOp.getFiles
      simp

theorem verifyRun_handlerCalls (db : FileDB) (acc : DirAccess) (cs : List Entry)
    (st : VState) (h : verifyRun db acc cs = .ok st) : st.handlerCalls = [] := by
  cases acc with
  | denied =>
    simp only [verifyRun, Except.ok.injEq] at h
    subst h
    rfl
  | err c =>
    simp only [verifyRun] at h
    cases h
  | ok =>
    simp only [verifyRun] at h
    cases hs : scanEntries db "" cs
        (handlerDirStart db "" ⟨db.dirs, [], [], [DBOp.getDirs], []⟩) with
    | error c =>
      rw [hs] at h
      cases h
    | ok st2 =>
      rw [hs] at h
      simp only [Except.ok.injEq] at h
      subst h
      obtain ⟨-, -, i3, -⟩ := scanEntries_inv db "" cs _ st2 hs
      obtain ⟨-, -, e3, -⟩ := handlerDirEnd_effect "" st2
      rw [e3, i3]
      rfl

/- Claim theorems. -/

/-- C3: for every visited file whose expected record's kind differs from the
live entry's kind, the mismatch check emits exactly one kind-mismatch report
and suppresses the size, timestamp and digest comparisons, so no size,
timestamp or digest report is emitted for that file
(VerifyDirMismatchHandler::checkFileMismatch, src/main.cpp lines 105-148). -/
theorem checkFileMismatch_kind_mismatch_suppresses (path : String) (e a : FileRecord)
    (h : e.type ≠ a.type) :
    checkFileMismatch path e a = ([MReport.typeMismatch path e.type a.type], false) := by
  simp [checkFileMismatch, h]

/-- Witness for C3: a file record against a directory record yields exactly
the one kind-mismatch event. -/
theorem checkFileMismatch_kind_mismatch_suppresses_witness :
    (FileRecord.mk FileType.file 1 2 [3]).type ≠ (FileRecord.mk FileType.dir 5 6 [7]).type ∧
    checkFileMismatch "p" ⟨FileType.file, 1, 2, [3]⟩ ⟨FileType.dir, 5, 6, [7]⟩
      = ([MReport.typeMismatch "p" FileType.file FileType.dir], false) :=
  ⟨by decide,
   checkFileMismatch_kind_mismatch_suppresses "p" ⟨FileType.file, 1, 2, [3]⟩
     ⟨FileType.dir, 5, 6, [7]⟩ (by decide)⟩

/-- C4 (code defect): the verify engine of utils.hpp formats every mismatch
as log text from inside the engine and never invokes the caller-supplied
MismatchHandler.  On a run exhibiting all four mismatch kinds (new file "a",
size mismatch on "m", missing file "b", missing directory "gone") the
engine's own report channel carries all four while the handler-call trace
stays empty. -/
theorem verify_mismatch_logged_handler_uninvoked :
    runReports
        ⟨["", "gone"],
         fun d => if d = "" then
            [("b", ⟨FileType.file, 1, 1, [1]⟩), ("m", ⟨FileType.file, 5, 7, [9]⟩)]
          else []⟩
        DirAccess.ok
        [Entry.file "a" ⟨FileType.file, 1, 2, [3]⟩,
         Entry.file "m" ⟨FileType.file, 6, 7, [9]⟩]
      = [Report.newFileFound "" "a", Report.sizeMismatch "" "m" 5 6,
         Report.fileNotFound "" "b", Report.dirNotFound "gone"] ∧
    runHandlerCalls
        ⟨["", "gone"],
         fun d => if d = "" then
            [("b", ⟨FileType.file, 1, 1, [1]⟩), ("m", ⟨FileType.file, 5, 7, [9]⟩)]
          else []⟩
        DirAccess.ok
        [Entry.file "a" ⟨FileType.file, 1, 2, [3]⟩,
         Entry.file "m" ⟨FileType.file, 6, 7, [9]⟩]
      = [] := by
  constructor <;> decide

/-- C5 (counterexample): with recorded directories "", "d" and "d/e" and a
live root containing neither, the walk enters only the root and the final
sweep reports both "d" and its nested recorded directory "d/e" — the removed
subtree does produce a report for a child, contrary to the claim. -/
theorem missing_subtree_children_reported_counterexample :
    runReports ⟨["", "d", "d/e"], fun _ => []⟩ DirAccess.ok []
      = [Report.dirNotFound "d", Report.dirNotFound "d/e"] ∧
    Report.dirNotFound "d/e" ∈ runReports ⟨["", "d", "d/e"], fun _ => []⟩ DirAccess.ok [] := by
  constructor <;> decide

/-- C5 (amended): every recorded directory the walk never enters — a removed
directory and equally each recorded directory nested below it — produces
exactly one DirectoryNotFound report, and no file-level report (new file,
file not found, or field mismatch) is located in such a directory, its
expectation never being fetched. -/
theorem missing_dir_reported_once_no_child_reports (db : FileDB) (acc : DirAccess)
    (cs : List Entry) (st : VState) (hnd : db.dirs.Nodup)
    (h : verifyRun db acc cs = Except.ok st) (p : String) (hp : p ∈ db.dirs)
    (hne : p ∉ enteredDirs acc cs) :
    (st.reports ++ st.dbDirs.map Report.dirNotFound).count (Report.dirNotFound p) = 1 ∧
    ∀ x ∈ st.reports ++ st.dbDirs.map Report.dirNotFound, reportRel x ≠ some p := by
  have hdb := verifyRun_dbDirs db acc cs st hnd h
  have hrep := verifyRun_reports db acc cs st h
  constructor
  · rw [List.count_append]
    have h1 : st.reports.count (Report.dirNotFound p) = 0 := by
      rw [List.count_eq_zero]
      intro hmem
      obtain ⟨rl, hrl, -⟩ := hrep _ hmem
      simp [reportRel] at hrl
    have hinj : Function.Injective Report.dirNotFound := by
      intro a b hab
      injection hab
    have h2 : (st.dbDirs.map Report.dirNotFound).count (Report.dirNotFound p)
        = st.dbDirs.count p := List.count_map_of_injective st.dbDirs _ hinj p
    rw [h1, h2, hdb]
    have hmemf : p ∈ db.dirs.filter (fun a => decide (a ∉ enteredDirs acc cs)) :=
      List.mem_filter.2 ⟨hp, by simpa using hne⟩
    simpa using List.count_eq_one_of_mem (hnd.filter _) hmemf
  · intro x hx
    rcases List.mem_append.1 hx with hx1 | hx2
    · obtain ⟨rl, hrl, hent⟩ := hrep x hx1
      rw [hrl]
      intro hc
      injection hc with hc
      exact hne (hc ▸ hent)
    · obtain ⟨d, -, rfl⟩ := List.mem_map.1 hx2
      simp [reportRel]

/-- Witness for C5 (amended): the unentered nested directory "d/e" of the
removed subtree "d" is reported exactly once and produces no file-level
report. -/
theorem missing_dir_reported_once_no_child_reports_witness :
    ((⟨["d", "d/e"], [], [], [DBOp.getDirs, DBOp.getFiles ""], []⟩ : VState).reports
        ++ (⟨["d", "d/e"], [], [], [DBOp.getDirs, DBOp.getFiles ""], []⟩ : VState).dbDirs.map
            Report.dirNotFound).count (Report.dirNotFound "d/e") = 1 ∧
    ∀ x ∈ (⟨["d", "d/e"], [], [], [DBOp.getDirs, DBOp.getFiles ""], []⟩ : VState).reports
        ++ (⟨["d", "d/e"], [], [], [DBOp.getDirs, DBOp.getFiles ""], []⟩ : VState).dbDirs.map
            Report.dirNotFound, reportRel x ≠ some "d/e" :=
  missing_dir_reported_once_no_child_reports ⟨["", "d", "d/e"], fun _ => []⟩
    DirAccess.ok [] ⟨["d", "d/e"], [], [], [DBOp.getDirs, DBOp.getFiles ""], []⟩
    (by decide) rfl "d/e" (by decide) (by decide)

/-- C6 (counterexample): a live directory "d" that exists but is access
denied is skipped before dirStart runs, so it is never removed from the
DirectorySet and the final sweep reports it missing even though it is present
in the live tree. -/
theorem denied_dir_remains_counterexample :
    "d" ∈ liveChildDirNames [Entry.dir "d" DirAccess.denied []] ∧
    runReports ⟨["", "d"], fun _ => []⟩ DirAccess.ok [Entry.dir "d" DirAccess.denied []]
      = [Report.dirNotFound "d"] := by
  constructor <;> decide

/-- C6 (amended): a recorded directory path is removed from the DirectorySet
exactly when the walker enters the corresponding live directory; a directory
that exists but is never entered (an access-denied one, or one inside a
skipped or absent subtree) remains, so the remaining entries are exactly the
recorded directories the walk did not enter. -/
theorem dirset_removed_iff_entered (db : FileDB) (acc : DirAccess) (cs : List Entry)
    (st : VState) (hnd : db.dirs.Nodup) (h : verifyRun db acc cs = Except.ok st)
    (p : String) (hp : p ∈ db.dirs) :
    p ∉ st.dbDirs ↔ p ∈ enteredDirs acc cs := by
  rw [verifyRun_dbDirs db acc cs st hnd h]
  simp [List.mem_filter, hp, not_not]

/-- Witness for C6 (amended): the entered root "" is removed while the
denied (hence unentered) directory "d" remains. -/
theorem dirset_removed_iff_entered_witness :
    (["", "d"] : List String).Nodup ∧
    (("" : String) ∉ (⟨["d"], [], [], [DBOp.getDirs, DBOp.getFiles ""], []⟩ : VState).dbDirs
      ↔ ("" : String) ∈ enteredDirs DirAccess.ok [Entry.dir "d" DirAccess.denied []]) :=
  ⟨by decide,
   dirset_removed_iff_entered ⟨["", "d"], fun _ => []⟩ DirAccess.ok
     [Entry.dir "d" DirAccess.denied []]
     ⟨["d"], [], [], [DBOp.getDirs, DBOp.getFiles ""], []⟩ (by decide) rfl "" (by decide)⟩

/-- C9: every create or verify run whose walk completes without a fatal
error makes main return exit status 0, regardless of the mismatches found
and reported along the way (src/main.cpp lines 236-261; the create-mode walk
is the spec-modelled createDBRun). -/
theorem exit_zero_on_completed_walk :
    (∀ (db : FileDB) (acc : DirAccess) (cs : List Entry) (rs : List Report),
       verifyDir db acc cs = Except.ok rs
         → mainVerifyOutcome db acc cs = MainOutcome.exitCode 0) ∧
    (∀ (acc : DirAccess) (cs : List Entry) (ops : List DBOp),
       createDBRun acc cs = Except.ok ops
         → mainCreateOutcome acc cs = MainOutcome.exitCode 0) := by
  constructor
  · intro db acc cs rs h
    unfold mainVerifyOutcome
    rw [h]
  · intro acc cs ops h
    unfold mainCreateOutcome
    rw [h]

/-- Witness for C9: a verify run that does report a mismatch (a new file)
still exits 0, and so does a create run. -/
theorem exit_zero_on_completed_walk_witness :
    mainVerifyOutcome ⟨[""], fun _ => []⟩ DirAccess.ok
        [Entry.file "a" ⟨FileType.file, 1, 2, [3]⟩] = MainOutcome.exitCode 0 ∧
    mainCreateOutcome DirAccess.ok [Entry.file "a" ⟨FileType.file, 1, 2, [3]⟩]
      = MainOutcome.exitCode 0 :=
  ⟨exit_zero_on_completed_walk.1 ⟨[""], fun _ => []⟩ DirAccess.ok
      [Entry.file "a" ⟨FileType.file, 1, 2, [3]⟩] [Report.newFileFound "" "a"] rfl,
   exit_zero_on_completed_walk.2 DirAccess.ok [Entry.file "a" ⟨FileType.file, 1, 2, [3]⟩]
      [DBOp.upsertDir "", DBOp.upsertFile "" "a" ⟨FileType.file, 1, 2, [3]⟩] rfl⟩

/-- C10: verifyDir issues only the two read queries getDirs and getFiles;
replaying every operation of a completed run against the store semantics
leaves the store identical, mismatches or not. -/
theorem verifyDir_readonly_store (db : FileDB) (acc : DirAccess) (cs : List Entry)
    (st : VState) (h : verifyRun db acc cs = Except.ok st) :
    (∀ op ∈ st.ops, isReadOp op = true) ∧ st.ops.foldl applyOp db = db := by
  have hops := verifyRun_ops db acc cs st h
  constructor
  · intro op hop
    rw [hops] at hop
    rcases List.mem_cons.1 hop with hop1 | hop2
    · rw [hop1]
      rfl
    · obtain ⟨d, -, rfl⟩ := List.mem_map.1 hop2
      rfl
  · rw [hops]
    have hfold : ∀ (l : List String) (d : FileDB),
        (l.map DBOp.getFiles).foldl applyOp d = d := by
      intro l
      induction l with
      | nil => intro d; rfl
      | cons x xs ih => intro d; exact ih d
    rw [List.foldl_cons]
    exact hfold _ db

/-- Witness for C10: a run over a store with one recorded directory issues
getDirs and one getFiles and replaying them leaves the store unchanged. -/
theorem verifyDir_readonly_store_witness :
    (∀ op ∈ (⟨[], [], [], [DBOp.getDirs, DBOp.getFiles ""], []⟩ : VState).ops,
      isReadOp op = true) ∧
    (⟨[], [], [], [DBOp.getDirs, DBOp.getFiles ""], []⟩ : VState).ops.foldl applyOp
        ⟨[""], fun _ => []⟩ = ⟨[""], fun _ => []⟩ :=
  verifyDir_readonly_store ⟨[""], fun _ => []⟩ DirAccess.ok []
    ⟨[], [], [], [DBOp.getDirs, DBOp.getFiles ""], []⟩ rfl

/-- C2: for a directory's dirStart/file.../dirEnd cycle over live regular
files L against the store expectation, NewFileFound reports plus matched
files plus FileNotFound reports equal the size of the union of live and
expected children; every visited file found in the expectation is removed
from it whether or not its fields matched, and every entry still present at
dirEnd yields exactly one FileNotFound report. -/
theorem dir_accounting_completeness (db : FileDB) (rel : String)
    (L : List (String × FileRecord)) (dd : List String) (cxs : List DirFileMap)
    (ops : List DBOp) (hc : List HandlerCall) (st2 : VState)
    (hE : keysNodup (db.files rel)) (hL : (L.map Prod.fst).Nodup)
    (hscan : scanEntries db rel (fileEntries L)
        (handlerDirStart db rel ⟨dd, cxs, [], ops, hc⟩) = Except.ok st2) :
    (handlerDirEnd rel st2).reports.countP isNewReport + matchedCount (db.files rel) L
        + (handlerDirEnd rel st2).reports.countP isFileNotFoundReport
      = unionSize (L.map Prod.fst) ((db.files rel).map Prod.fst) ∧
    st2.ctxs = visitTop (db.files rel) L :: cxs ∧
    visitTop (db.files rel) L
      = (db.files rel).filter (fun q => decide (q.1 ∉ L.map Prod.fst)) ∧
    (handlerDirEnd rel st2).reports.countP isFileNotFoundReport
      = (visitTop (db.files rel) L).length := by
  rw [scanEntries_files, show handlerDirStart db rel ⟨dd, cxs, [], ops, hc⟩
      = ⟨dd.erase rel, db.files rel :: cxs, [], ops ++ [DBOp.getFiles rel], hc⟩ from rfl,
    visitFiles_spec] at hscan
  simp only [Except.ok.injEq] at hscan
  subst hscan
  have hde : handlerDirEnd rel ⟨dd.erase rel, visitTop (db.files rel) L :: cxs,
        [] ++ fileVisitReports rel (db.files rel) L, ops ++ [DBOp.getFiles rel], hc⟩
      = ⟨dd.erase rel, cxs,
          ([] ++ fileVisitReports rel (db.files rel) L)
            ++ (visitTop (db.files rel) L).map (fun q => Report.fileNotFound rel q.1),
          ops ++ [DBOp.getFiles rel], hc⟩ := rfl
  rw [hde]
  have hnewZero : (fileVisitReports rel (db.files rel) L).countP isFileNotFoundReport = 0 := by
    apply countP_fileVisitReports_zero
    intro a ha
    exact ⟨fun x y => rfl, fun x y => rfl, fun x y => rfl, rfl⟩
  have hnewCount := countP_isNew_fileVisitReports rel L hL (db.files rel)
  have hfilterTop := visitTop_filter (db.files rel) L hE
  refine ⟨?_, rfl, hfilterTop, ?_⟩
  · simp only [List.nil_append, List.countP_append, hnewCount, hnewZero,
      countP_map_fileNotFound_isNew, countP_map_fileNotFound_isFNF, Nat.add_zero, Nat.zero_add]
    have hpart := count_partition (db.files rel) L
    have huni := unionSize_eq L (db.files rel)
    rw [hfilterTop, huni]
    omega
  · simp only [List.nil_append, List.countP_append, hnewZero,
      countP_map_fileNotFound_isFNF, Nat.zero_add]

/-- Witness for C2: one new live file "a" against an expectation holding only
"x" gives one NewFileFound, zero matches, one FileNotFound, union size 2. -/
theorem dir_accounting_completeness_witness :
    (handlerDirEnd ""
        ⟨[], [[("x", ⟨FileType.file, 1, 1, [1]⟩)]], [Report.newFileFound "" "a"],
         [DBOp.getFiles ""], []⟩).reports.countP isNewReport
      + matchedCount ((FileDB.mk [""] (fun d => if d = "" then
          [("x", ⟨FileType.file, 1, 1, [1]⟩)] else [])).files "") [("a", ⟨FileType.file, 2, 2, [2]⟩)]
      + (handlerDirEnd ""
        ⟨[], [[("x", ⟨FileType.file, 1, 1, [1]⟩)]], [Report.newFileFound "" "a"],
         [DBOp.getFiles ""], []⟩).reports.countP isFileNotFoundReport
      = unionSize ([("a", (⟨FileType.file, 2, 2, [2]⟩ : FileRecord))].map Prod.fst)
          (((FileDB.mk [""] (fun d => if d = "" then
            [("x", ⟨FileType.file, 1, 1, [1]⟩)] else [])).files "").map Prod.fst) ∧
    (⟨[], [[("x", ⟨FileType.file, 1, 1, [1]⟩)]], [Report.newFileFound "" "a"],
        [DBOp.getFiles ""], []⟩ : VState).ctxs
      = visitTop ((FileDB.mk [""] (fun d => if d = "" then
          [("x", ⟨FileType.file, 1, 1, [1]⟩)] else [])).files "")
          [("a", ⟨FileType.file, 2, 2, [2]⟩)] :: [] ∧
    visitTop ((FileDB.mk [""] (fun d => if d = "" then
        [("x", ⟨FileType.file, 1, 1, [1]⟩)] else [])).files "")
        [("a", ⟨FileType.file, 2, 2, [2]⟩)]
      = ((FileDB.mk [""] (fun d => if d = "" then
          [("x", ⟨FileType.file, 1, 1, [1]⟩)] else [])).files "").filter
          (fun q => decide (q.1 ∉ [("a", (⟨FileType.file, 2, 2, [2]⟩ : FileRecord))].map Prod.fst)) ∧
    (handlerDirEnd ""
        ⟨[], [[("x", ⟨FileType.file, 1, 1, [1]⟩)]], [Report.newFileFound "" "a"],
         [DBOp.getFiles ""], []⟩).reports.countP isFileNotFoundReport
      = (visitTop ((FileDB.mk [""] (fun d => if d = "" then
          [("x", ⟨FileType.file, 1, 1, [1]⟩)] else [])).files "")
          [("a", ⟨FileType.file, 2, 2, [2]⟩)]).length :=
  dir_accounting_completeness
    (FileDB.mk [""] (fun d => if d = "" then [("x", ⟨FileType.file, 1, 1, [1]⟩)] else []))
    "" [("a", ⟨FileType.file, 2, 2, [2]⟩)] [] [] [] []
    ⟨[], [[("x", ⟨FileType.file, 1, 1, [1]⟩)]], [Report.newFileFound "" "a"],
     [DBOp.getFiles ""], []⟩
    (by unfold keysNodup; decide) (by decide) rfl

theorem processChunks_readFailure_iff (reads : List (List Nat × Bool)) :
    ∀ fed, (∃ f, processChunks fed reads = PFResult.readFailure f)
      ↔ shortReadNotEof reads := by
  induction reads with
  | nil =>
    intro fed
    constructor
    · rintro ⟨f, hf⟩
      simp [processChunks] at hf
    · rintro ⟨k, hk, -⟩
      simp at hk
  | cons ce rest ih =>
    intro fed
    obtain ⟨c, eflag⟩ := ce
    by_cases hlen : c.length = 4096
    · rw [show processChunks fed ((c, eflag) :: rest)
          = processChunks (fed ++ [c]) rest from by simp [processChunks, hlen]]
      rw [ih (fed ++ [c])]
      constructor
      · rintro ⟨k, hk, hall, hshort, heof⟩
        refine ⟨k + 1, by simpa using hk, ?_, ?_, ?_⟩
        · rw [List.take_succ_cons, List.all_cons]
          simp only [hlen, beq_self_eq_true, Bool.true_and]
          exact hall
        · simpa using hshort
        · simpa using heof
      · rintro ⟨k, hk, hall, hshort, heof⟩
        cases k with
        | zero =>
          exact absurd (by simpa using hlen) hshort
        | succ k2 =>
          refine ⟨k2, by simpa using hk, ?_, ?_, ?_⟩
          · rw [List.take_succ_cons, List.all_cons, Bool.and_eq_true] at hall
            exact hall.2
          · simpa using hshort
          · simpa using heof
    · cases eflag with
      | true =>
        rw [show processChunks fed ((c, true) :: rest)
            = PFResult.finished (fed ++ [c]) from by simp [processChunks, hlen]]
        constructor
        · rintro ⟨f, hf⟩
          cases hf
        · rintro ⟨k, hk, hall, hshort, heof⟩
          cases k with
          | zero => simp at heof
          | succ k2 =>
            rw [List.take_succ_cons, List.all_cons, Bool.and_eq_true] at hall
            have := hall.1
            simp only [beq_iff_eq] at this
            exact absurd this hlen
      | false =>
        rw [show processChunks fed ((c, false) :: rest)
            = PFResult.readFailure fed from by simp [processChunks, hlen]]
        constructor
        · intro h2
          exact ⟨0, by simp, by simp, by simpa using hlen, by simp⟩
        · intro h2
          exact ⟨fed, rfl⟩

theorem processChunks_readsOfContent (c : List Nat) :
    ∀ fed, processChunks fed (readsOfContent c)
      = PFResult.finished (fed ++ chunksOf c) := by
  by_cases hlt : c.length < 4096
  · intro fed
    rw [readsOfContent, if_pos hlt, chunksOf, if_pos hlt]
    simp [processChunks, Nat.ne_of_lt hlt]
  · intro fed
    rw [readsOfContent, if_neg hlt, chunksOf, if_neg hlt]
    have h4096 : (c.take 4096).length = 4096 := by
      rw [List.length_take]
      omega
    rw [show processChunks fed ((c.take 4096, false) :: readsOfContent (c.drop 4096))
        = processChunks (fed ++ [c.take 4096]) (readsOfContent (c.drop 4096)) from by
      simp [processChunks, h4096]]
    rw [processChunks_readsOfContent (c.drop 4096) (fed ++ [c.take 4096])]
    simp
termination_by c.length
decreasing_by simp; omega

theorem chunksOf_join (c : List Nat) : (chunksOf c).flatten = c := by
  by_cases hlt : c.length < 4096
  · rw [chunksOf, if_pos hlt]
    simp
  · rw [chunksOf, if_neg hlt]
    simp [chunksOf_join (c.drop 4096)]
termination_by c.length
decreasing_by simp; omega

theorem chunksOf_ne_nil (c : List Nat) : chunksOf c ≠ [] := by
  by_cases hlt : c.length < 4096
  · rw [chunksOf, if_pos hlt]
    simp
  · rw [chunksOf, if_neg hlt]
    simp

theorem chunksOf_dropLast_full (c : List Nat) :
    ∀ ch ∈ (chunksOf c).dropLast, ch.length = 4096 := by
  by_cases hlt : c.length < 4096
  · rw [chunksOf, if_pos hlt]
    simp
  · rw [chunksOf, if_neg hlt]
    rw [List.dropLast_cons_of_ne_nil (chunksOf_ne_nil _)]
    intro ch hch
    rcases List.mem_cons.1 hch with hh | hmem
    · rw [hh, List.length_take]
      omega
    · exact chunksOf_dropLast_full (c.drop 4096) ch hmem
termination_by c.length
decreasing_by simp; omega

/-- C7: the read loop consumes the file in fixed 4096-byte chunks, feeding
each chunk (and at end-of-file the final partial chunk) into the accumulator,
and it raises the fatal read failure exactly when a short read occurs that is
not at end-of-file.  For a regular file the fed chunks reassemble the content
and all but the last have length 4096. -/
theorem processFile_chunking :
    (∀ (reads : List (List Nat × Bool)) (fed : List (List Nat)),
      (∃ f, processChunks fed reads = PFResult.readFailure f) ↔ shortReadNotEof reads) ∧
    (∀ content : List Nat,
      processChunks [] (readsOfContent content) = PFResult.finished (chunksOf content) ∧
      (chunksOf content).flatten = content ∧
      ∀ ch ∈ (chunksOf content).dropLast, ch.length = 4096) := by
  refine ⟨fun reads fed => processChunks_readFailure_iff reads fed,
    fun content => ⟨?_, chunksOf_join content, chunksOf_dropLast_full content⟩⟩
  simpa using processChunks_readsOfContent content []

/-- C8: whenever processFile's open succeeds, the file handle is closed
before the call returns, on the normal path and on the read-failure,
chunk-exception and close-failure paths alike; when the open fails no handle
is ever acquired. -/
theorem processFile_releases_handle (openOk : Bool) (reads : List (List Nat × Bool))
    (throwAt : Option Nat) (closeOk : Bool)
    (hout : (processFileH openOk reads throwAt closeOk).outcome ≠ PFOutcome.ranOut)
    (hop : (processFileH openOk reads throwAt closeOk).opened = true) :
    (processFileH openOk reads throwAt closeOk).closed = true := by
  cases openOk with
  | false => simp [processFileH] at hop
  | true =>
    cases hl : pfLoop throwAt 0 reads with
    | ranOut =>
      exact absurd (by simp [processFileH, hl]) hout
    | completed => simp [processFileH, hl]
    | readFailed => simp [processFileH, hl]
    | chunkThrew => simp [processFileH, hl]

/-- Witness for C8: a one-read file is processed, opened and closed. -/
theorem processFile_releases_handle_witness :
    (processFileH true [([], true)] none true).outcome ≠ PFOutcome.ranOut ∧
    (processFileH true [([], true)] none true).opened = true ∧
    (processFileH true [([], true)] none true).closed = true :=
  ⟨by decide, by decide,
   processFile_releases_handle true [([], true)] none true (by decide) (by decide)⟩

/-- C1: in a verification run over live regular files L in the root, a file n
recorded with kind file whose live counterpart has a different size and a
different digest but the same timestamp produces exactly one size-mismatch
and one digest-mismatch report, no timestamp-mismatch report, and no
NewFileFound or FileNotFound report for that name. -/
theorem verifyDir_size_digest_mismatch_counts (db : FileDB)
    (L : List (String × FileRecord)) (n : String) (e r : FileRecord)
    (hE : keysNodup (db.files ""))
    (hL : (L.map Prod.fst).Nodup)
    (hmem : (n, r) ∈ L)
    (hfind : findRec n (db.files "") = some e)
    (_het : e.type = FileType.file) (_hrt : r.type = FileType.file)
    (hsize : e.fileSize ≠ r.fileSize)
    (hdig : e.md5Digest ≠ r.md5Digest)
    (hts : e.lastModifiedTS = r.lastModifiedTS) :
    (runReports db DirAccess.ok (fileEntries L)).countP (isSizeFor "" n) = 1 ∧
    (runReports db DirAccess.ok (fileEntries L)).countP (isDigestFor "" n) = 1 ∧
    (runReports db DirAccess.ok (fileEntries L)).countP (isTsFor "" n) = 0 ∧
    (runReports db DirAccess.ok (fileEntries L)).countP (isNewFor "" n) = 0 ∧
    (runReports db DirAccess.ok (fileEntries L)).countP (isNotFoundFor "" n) = 0 := by
  have hscan := scanEntries_files db "" L
    (handlerDirStart db "" ⟨db.dirs, [], [], [DBOp.getDirs], []⟩)
  rw [show handlerDirStart db "" ⟨db.dirs, [], [], [DBOp.getDirs], []⟩
      = ⟨List.erase db.dirs "", [db.files ""], [], [DBOp.getDirs, DBOp.getFiles ""], []⟩
      from rfl, visitFiles_spec] at hscan
  have hrun : runReports db DirAccess.ok (fileEntries L)
      = (([] ++ fileVisitReports "" (db.files "") L)
          ++ (visitTop (db.files "") L).map (fun q => Report.fileNotFound "" q.1))
          ++ (List.erase db.dirs "").map Report.dirNotFound := by
    unfold runReports verifyDir verifyRun
    simp only [handlerDirStart, List.cons_append, List.nil_append]
    rw [hscan]
    rfl
  have hkeyn : ∀ q ∈ visitTop (db.files "") L, q.1 ≠ n := by
    intro q hq
    rw [visitTop_filter (db.files "") L hE] at hq
    obtain ⟨-, hq2⟩ := List.mem_filter.1 hq
    simp only [decide_eq_true_eq] at hq2
    intro hcontra
    apply hq2
    rw [hcontra]
    exact List.mem_map_of_mem Prod.fst hmem
  obtain ⟨L1, L2, rfl⟩ := List.append_of_mem hmem
  rw [List.map_append, List.map_cons] at hL
  have hdisj := (List.nodup_append.1 hL).2.2
  have hn1 : n ∉ L1.map Prod.fst := by
    intro hcontra
    exact hdisj hcontra (List.mem_cons_self _ _)
  have hn2 : n ∉ L2.map Prod.fst :=
    (List.nodup_cons.1 (List.nodup_append.1 hL).2.1).1
  have hEfix : findRec n (visitTop (db.files "") L1) = some e := by
    rw [findRec_visitTop_of_not_mem n _ L1 hn1]
    exact hfind
  have hfield : fieldReports "" n e r
      = [Report.sizeMismatch "" n e.fileSize r.fileSize,
         Report.digestMismatch "" n e.md5Digest r.md5Digest] := by
    unfold fieldReports
    rw [if_pos hsize, if_neg (by simp [hts]), if_pos hdig]
    rfl
  have hsplit : fileVisitReports "" (db.files "") (L1 ++ (n, r) :: L2)
      = fileVisitReports "" (db.files "") L1
        ++ ([Report.sizeMismatch "" n e.fileSize r.fileSize,
             Report.digestMismatch "" n e.md5Digest r.md5Digest]
            ++ fileVisitReports "" (eraseKey n (visitTop (db.files "") L1)) L2) := by
    rw [fileVisitReports_append]
    congr 1
    rw [show fileVisitReports "" (visitTop (db.files "") L1) ((n, r) :: L2)
        = fieldReports "" n e r
          ++ fileVisitReports "" (eraseKey n (visitTop (db.files "") L1)) L2 from by
      simp [fileVisitReports, hEfix], hfield]
  have hzgen : ∀ (p : Report → Bool),
      (∀ a, a ≠ n → (∀ x y, p (Report.sizeMismatch "" a x y) = false) ∧
        (∀ x y, p (Report.tsMismatch "" a x y) = false) ∧
        (∀ x y, p (Report.digestMismatch "" a x y) = false) ∧
        p (Report.newFileFound "" a) = false) →
      (fileVisitReports "" (db.files "") L1).countP p = 0 ∧
      (fileVisitReports "" (eraseKey n (visitTop (db.files "") L1)) L2).countP p = 0 := by
    intro p hp
    constructor
    · apply countP_fileVisitReports_zero
      intro a ha
      exact hp a (fun hcontra => hn1 (hcontra ▸ ha))
    · apply countP_fileVisitReports_zero
      intro a ha
      exact hp a (fun hcontra => hn2 (hcontra ▸ ha))
  have hzsize := hzgen (isSizeFor "" n) (fun a ha =>
    ⟨fun x y => by simp [isSizeFor, ha], fun x y => rfl, fun x y => rfl, rfl⟩)
  have hzdig := hzgen (isDigestFor "" n) (fun a ha =>
    ⟨fun x y => rfl, fun x y => rfl, fun x y => by simp [isDigestFor, ha], rfl⟩)
  have hzts := hzgen (isTsFor "" n) (fun a ha =>
    ⟨fun x y => rfl, fun x y => by simp [isTsFor, ha], fun x y => rfl, rfl⟩)
  have hznew := hzgen (isNewFor "" n) (fun a ha =>
    ⟨fun x y => rfl, fun x y => rfl, fun x y => rfl, by simp [isNewFor, ha]⟩)
  have hznf := hzgen (isNotFoundFor "" n) (fun a ha =>
    ⟨fun x y => rfl, fun x y => rfl, fun x y => rfl, rfl⟩)
  have hmap1 : ∀ (p : Report → Bool),
      (∀ q : String × FileRecord, p (Report.fileNotFound "" q.1) = false) →
      ((visitTop (db.files "") (L1 ++ (n, r) :: L2)).map
        (fun q => Report.fileNotFound "" q.1)).countP p = 0 := by
    intro p hp
    rw [List.countP_map]
    apply List.countP_eq_zero.2
    intro q hq
    simp [hp q]
  have hmap1nf : ((visitTop (db.files "") (L1 ++ (n, r) :: L2)).map
      (fun q => Report.fileNotFound "" q.1)).countP (isNotFoundFor "" n) = 0 := by
    rw [List.countP_map]
    apply List.countP_eq_zero.2
    intro q hq
    have hqn := hkeyn q hq
    simp [isNotFoundFor, hqn]
  have hmap2 : ∀ (p : Report → Bool), (∀ d, p (Report.dirNotFound d) = false) →
      ((List.erase db.dirs "").map Report.dirNotFound).countP p = 0 := by
    intro p hp
    rw [List.countP_map]
    apply List.countP_eq_zero.2
    intro q hq
    simp [hp q]
  refine ⟨?_, ?_, ?_, ?_, ?_⟩ <;>
    rw [hrun, hsplit] <;>
    simp only [List.nil_append, List.countP_append]
  · rw [hzsize.1, hzsize.2, hmap1 _ (fun q => rfl), hmap2 _ (fun d => rfl)]
    simp [List.countP_cons, isSizeFor]
  · rw [hzdig.1, hzdig.2, hmap1 _ (fun q => rfl), hmap2 _ (fun d => rfl)]
    simp [List.countP_cons, isDigestFor]
  · rw [hzts.1, hzts.2, hmap1 _ (fun q => rfl), hmap2 _ (fun d => rfl)]
    simp [List.countP_cons, isTsFor]
  · rw [hznew.1, hznew.2, hmap1 _ (fun q => rfl), hmap2 _ (fun d => rfl)]
    simp [List.countP_cons, isNewFor]
  · rw [hznf.1, hznf.2, hmap1nf, hmap2 _ (fun d => rfl)]
    simp [List.countP_cons, isNotFoundFor]

/-- Witness for C1: the spec's concrete scenario — size 10 changed to 12,
digest [1] changed to [2], timestamps equal — yields exactly one size and one
digest mismatch report and nothing else for that name. -/
theorem verifyDir_size_digest_mismatch_counts_witness :
    (runReports (FileDB.mk [""] (fun d => if d = "" then
        [("n", ⟨FileType.file, 10, 5, [1]⟩)] else [])) DirAccess.ok
        (fileEntries [("n", ⟨FileType.file, 12, 5, [2]⟩)])).countP (isSizeFor "" "n") = 1 ∧
    (runReports (FileDB.mk [""] (fun d => if d = "" then
        [("n", ⟨FileType.file, 10, 5, [1]⟩)] else [])) DirAccess.ok
        (fileEntries [("n", ⟨FileType.file, 12, 5, [2]⟩)])).countP (isDigestFor "" "n") = 1 ∧
    (runReports (FileDB.mk [""] (fun d => if d = "" then
        [("n", ⟨FileType.file, 10, 5, [1]⟩)] else [])) DirAccess.ok
        (fileEntries [("n", ⟨FileType.file, 12, 5, [2]⟩)])).countP (isTsFor "" "n") = 0 ∧
    (runReports (FileDB.mk [""] (fun d => if d = "" then
        [("n", ⟨FileType.file, 10, 5, [1]⟩)] else [])) DirAccess.ok
        (fileEntries [("n", ⟨FileType.file, 12, 5, [2]⟩)])).countP (isNewFor "" "n") = 0 ∧
    (runReports (FileDB.mk [""] (fun d => if d = "" then
        [("n", ⟨FileType.file, 10, 5, [1]⟩)] else [])) DirAccess.ok
        (fileEntries [("n", ⟨FileType.file, 12, 5, [2]⟩)])).countP (isNotFoundFor "" "n") = 0 :=
  verifyDir_size_digest_mismatch_counts
    (FileDB.mk [""] (fun d => if d = "" then [("n", ⟨FileType.file, 10, 5, [1]⟩)] else []))
    [("n", ⟨FileType.file, 12, 5, [2]⟩)] "n" ⟨FileType.file, 10, 5, [1]⟩
    ⟨FileType.file, 12, 5, [2]⟩ (by unfold keysNodup; decide) (by decide) (by decide)
    (by decide) rfl rfl (by decide) (by decide) (by decide)
